import Mathlib

/-!
# joy: interface definitions and the command line front end

A shallow embedding of

* `golang/def/iface/iface.go`: `NewInterface`, the accessors of `ifacedef`
  and the interface resolver `ImplementedBy`;
* `cmd/golly/golly.go`: `getMains` (the parsing of the `go list` output) and
  `build`.

Go strings are modelled as lists of characters.  The only separators the code
looks for are the ASCII characters `'\n'`, `'|'` and `' '`, so nothing below
depends on how the text between them is encoded.
-/

set_option autoImplicit false

namespace Joy

/-- A Go `string`. -/
abbrev GoString := List Char

/-! ## Definitions and the index (`golang/def`, `golang/index`) -/

/-- A value implementing `method.Method`: a definition with a receiver.
`recv` stands for `m.Recv().Type()`. -/
structure Method (Ty : Type) where
  id : GoString
  name : GoString
  path : GoString
  recv : Ty
  deriving DecidableEq, Repr

/-- A `def.Definition` held by the index.  The type assertion
`n.(method.Method)` of `ImplementedBy` succeeds on `method` and fails on every
other variant (functions, types, interfaces, variables). -/
inductive Definition (Ty : Type) where
  | method (m : Method Ty)
  | other (id name path : GoString)
  deriving DecidableEq, Repr

/-- The type assertion `m, ok := n.(method.Method)`. -/
def Definition.asMethod {Ty : Type} : Definition Ty → Option (Method Ty)
  | .method m => some m
  | .other _ _ _ => none

/-- The `Name()` of a definition. -/
def Definition.Name {Ty : Type} : Definition Ty → GoString
  | .method m => m.name
  | .other _ name _ => name

/-! ## `go/ast` and `loader.PackageInfo`, as far as `NewInterface` reads them -/

/-- What the type of an `*ast.Field` of an interface body is: a method
signature, or an embedded interface, whose method names (as resolved by the
type checker) are `methodNames`. -/
inductive FieldType where
  | funcType
  | embedded (methodNames : List GoString)
  deriving DecidableEq, Repr

/-- An `*ast.Field` of `iface.Methods.List`.  A method `Area() float64` is a
field with `Names = [Area]`; an embedded interface is a field with no names. -/
structure Field where
  Names : List GoString
  Type_ : FieldType
  deriving DecidableEq, Repr

/-- The `n.Type` of an `*ast.TypeSpec`: an `*ast.InterfaceType` with its
`Methods.List`, or any other expression. -/
inductive Expr where
  | InterfaceType (Methods : List Field)
  | otherExpr
  deriving DecidableEq, Repr

/-- An `*ast.TypeSpec`: the declared name, the declared type and the comment
group attached to the declaration (where a `js:"name,omit"` tag lives). -/
structure TypeSpec where
  Doc : List GoString
  Name : GoString
  Type_ : Expr
  deriving DecidableEq, Repr

/-- The part of `*loader.PackageInfo` that `NewInterface` reads:
`ObjectOf(n.Name).Pkg().Path()`, `ObjectOf(n.Name).Exported()` and
`TypeOf(n.Type).(*types.Interface)` (`none` when the assertion fails). -/
structure PackageInfo (Kind : Type) where
  objPkgPath : GoString → GoString
  objExported : GoString → Bool
  typeOfInterface : Expr → Option Kind

/-- The struct `ifacedef`.  The `index` pointer is not a field here: the
content of the index at the time of a call is an argument of `ImplementedBy`. -/
structure ifacedef (Kind : Type) where
  exported : Bool
  path : GoString
  name : GoString
  id : GoString
  methods : List GoString
  node : TypeSpec
  kind : Kind

/-- How a call of `NewInterface` can fail: the unchecked type assertion
`n.Type.(*ast.InterfaceType)` panics, or the function returns an error. -/
inductive Failure where
  | panic
  | error (msg : GoString)
  deriving DecidableEq, Repr

/-- The separator of `strings.Join(idParts, " ")`. -/
def idSep : GoString := [ ' ']

/-- The value of `strings.Join([]string{a, b}, " ")`. -/
def joinId (packagePath name : GoString) : GoString :=
  packagePath ++ idSep ++ name

/-- The loop of `NewInterface` over `iface.Methods.List`:
`for _, list := range ... { for _, method := range list.Names { append } }`. -/
def collectMethods (fields : List Field) : List GoString :=
  fields.foldl (fun methods list =>
    list.Names.foldl (fun methods method => methods ++ [method]) methods) []

/-- The function `NewInterface`. -/
def NewInterface {Kind : Type} (info : PackageInfo Kind) (n : TypeSpec) :
    Except Failure (ifacedef Kind) :=
  let packagePath := info.objPkgPath n.Name
  let id := joinId packagePath n.Name
  match n.Type_ with
  | .otherExpr => .error .panic
  | .InterfaceType fields =>
    let methods := collectMethods fields
    match info.typeOfInterface n.Type_ with
    | none => .error (.error "NewInterface: expected n.Type to be an interface".toList)
    | some kind =>
      .ok { exported := info.objExported n.Name
            path := packagePath
            name := n.Name
            id := id
            node := n
            methods := methods
            kind := kind }

namespace ifacedef

variable {Ty Kind : Type}

/-- The method `ID`. -/
def ID (d : ifacedef Kind) : GoString := d.id

/-- The method `Name`. -/
def Name (d : ifacedef Kind) : GoString := d.name

/-- The method `Path`. -/
def Path (d : ifacedef Kind) : GoString := d.path

/-- The method `Dependencies`: the pair `(nil, nil)`, a nil slice (the empty
list) and a nil error (`none`). -/
def Dependencies (Ty : Type) (_d : ifacedef Kind) :
    List (Definition Ty) × Option GoString :=
  ([], none)

/-- The method `Exported`. -/
def Exported (d : ifacedef Kind) : Bool := d.exported

/-- The method `Omitted`. -/
def Omitted (_d : ifacedef Kind) : Bool := false

/-- One iteration of the loop of `ImplementedBy` on the index entry `n`, with
`defs` the slice built so far. -/
def implementedByStep (implements : Ty → Kind → Bool) (d : ifacedef Kind)
    (meth : GoString) (defs : List (Method Ty)) (n : Definition Ty) : List (Method Ty) :=
  match n.asMethod with
  | none => defs
  | some m =>
    if m.name ≠ meth then defs
    else if implements m.recv d.kind then defs ++ [m]
    else defs

/-- The method `ImplementedBy`.  `all` is `d.index.All()` and `implements` is
the judgment `types.Implements`. -/
def ImplementedBy (implements : Ty → Kind → Bool) (all : List (Definition Ty))
    (d : ifacedef Kind) (meth : GoString) : List (Method Ty) :=
  all.foldl (implementedByStep implements d meth) []

end ifacedef

/-! ## `cmd/golly/golly.go` -/

/-- A Go `error` value: a plain error, or the result of `errors.Wrap`. -/
inductive GoError where
  | plain (text : GoString)
  | wrap (cause : GoError) (message : GoString)
  deriving DecidableEq, Repr

/-- The method `Error()` of an error; for `errors.Wrap(cause, message)` it is
`message + ": " + cause.Error()`. -/
def GoError.Error : GoError → GoString
  | .plain text => text
  | .wrap cause message => message ++ ": ".toList ++ cause.Error

/-- The function `errors.Cause`: the innermost error of a chain of wraps. -/
def GoError.Cause : GoError → GoError
  | .plain text => .plain text
  | .wrap cause _ => cause.Cause

/-- Cut `s` around the first occurrence of the one-character separator `sep`
(`m := strings.Index(s, sep)`, then `s[:m]` and `s[m+len(sep):]`); `none` when
`sep` does not occur (`m < 0`). -/
def cut (sep : Char) : GoString → Option (GoString × GoString)
  | [] => none
  | c :: cs =>
    if c = sep then some ([], cs)
    else match cut sep cs with
      | none => none
      | some (a, b) => some (c :: a, b)

/-- The loop of `genSplit` in Go's `strings` package, with `k` the number of
cuts still allowed (`n - 1 - i`): cut at `sep` until `k` cuts were made or `sep`
no longer occurs; the rest is the last substring. -/
def splitLoop (sep : Char) : Nat → GoString → List GoString
  | 0, s => [s]
  | k + 1, s =>
    match cut sep s with
    | none => [s]
    | some (a, rest) => a :: splitLoop sep k rest

/-- The call `strings.SplitN(s, sep, n)` for `n ≥ 0` and a one-character `sep`:
no substring for `n = 0`, otherwise at most `n` substrings, the last one being
the unsplit remainder. -/
def SplitN (s : GoString) (sep : Char) (n : Nat) : List GoString :=
  if n = 0 then [] else splitLoop sep (n - 1) s

/-- The call `strings.Split(s, sep)` for a one-character `sep`: `genSplit` with
`n = strings.Count(s, sep) + 1`. -/
def Split (s : GoString) (sep : Char) : List GoString :=
  splitLoop sep (s.count sep) s

/-- The call `strings.Join(elems, sep)` for a one-character `sep`. -/
def Join (elems : List GoString) (sep : Char) : GoString :=
  match elems with
  | [] => []
  | [e] => e
  | e :: es => e ++ sep :: Join es sep

/-- The package name `"main"` that `getMains` compares `parts[0]` with. -/
def mainName : GoString := "main".toList

/-- What the loop of `getMains` has produced so far: the slice `results` and
the lines reported through `log.Warnf`. -/
structure ParseState where
  results : List GoString
  warnings : List GoString
  deriving DecidableEq, Repr

/-- One iteration of the loop of `getMains` on `line`. -/
def parseStep (st : ParseState) (line : GoString) : ParseState :=
  if line = [] then st
  else
    match SplitN line '|' 2 with
    | [p0, p1] =>
      if p0 = mainName then { st with results := st.results ++ [p1] } else st
    | _ => { st with warnings := st.warnings ++ [line] }

/-- The loop `for _, line := range strings.Split(output, "\n")` over given
lines, from the empty `results`. -/
def parseLines (lines : List GoString) : ParseState :=
  lines.foldl parseStep { results := [], warnings := [] }

/-- The parsing part of `getMains`, from the output of `go list`. -/
def parseOutput (output : GoString) : ParseState :=
  parseLines (Split output '\n')

/-- The arguments `getMains` passes to the `go` command. -/
def goListArgs (packages : List GoString) : List GoString :=
  ["list".toList, "-f".toList, "\x7b\x7b.Name\x7d\x7d|\x7b\x7b.ImportPath\x7d\x7d".toList]
    ++ packages

/-- The function `getMains`.  `lookPath` is the outcome of
`exec.LookPath("go")` and `execGo goCmd args` the outcome of running the
command.  The result is the returned pair (an error, or the slice with a nil
error) together with the warnings logged. -/
def getMains (lookPath : Except GoError GoString)
    (execGo : GoString → List GoString → Except GoError GoString)
    (packages : List GoString) : Except GoError (List GoString) × List GoString :=
  match lookPath with
  | .error err => (.error err, [])
  | .ok goCmd =>
    match execGo goCmd (goListArgs packages) with
    | .error err => (.error err, [])
    | .ok output =>
      let st := parseOutput output
      (.ok st.results, st.warnings)

/-- An artifact returned by `compiler.Compile`. -/
structure File where
  Name : GoString
  Source : GoString
  deriving DecidableEq, Repr

/-- The body of the printing loop of `build`: the five `fmt.Println` calls for
one artifact, appended to what was printed so far. -/
def printFile (stdout : List GoString) (file : File) : List GoString :=
  stdout ++ ["---".toList, file.Name, "---".toList, file.Source, "===".toList]

/-- What a run of `build` does: the arguments of the `fmt.Println` calls in
order, the warnings logged, and the returned error (`none` for nil). -/
structure BuildResult where
  stdout : List GoString
  warnings : List GoString
  err : Option GoError
  deriving DecidableEq, Repr

/-- The function `build`.  `pathJoin pkg` is
`path.Join(os.Getenv("GOPATH"), "src", pkg)` and `compile` is
`compiler.Compile`, returning the artifacts and the error (the second of its
three results is dropped by `build`). -/
def build (lookPath : Except GoError GoString)
    (execGo : GoString → List GoString → Except GoError GoString)
    (buildPackages : List GoString) (pathJoin : GoString → GoString)
    (compile : List GoString → List File × Option GoError) : BuildResult :=
  match getMains lookPath execGo buildPackages with
  | (.error err, warnings) => { stdout := [], warnings := warnings, err := some err }
  | (.ok packages, warnings) =>
    let packages := packages.map pathJoin
    match compile packages with
    | (_, some e) =>
      { stdout := [], warnings := warnings,
        err := some (.wrap e "error building packages".toList) }
    | (files, none) =>
      { stdout := files.foldl printFile [], warnings := warnings, err := none }

/-! ## Specification-side definitions and example data -/

section ResolverDefs

variable {Ty Kind : Type}

/-- Whether `ImplementedBy` keeps the index entry `n`, and as which method:
the three tests of the loop body taken together. -/
def selects (implements : Ty → Kind → Bool) (d : ifacedef Kind) (meth : GoString)
    (n : Definition Ty) : Option (Method Ty) :=
  match n with
  | .method m => if m.name = meth ∧ implements m.recv d.kind = true then some m else none
  | .other _ _ _ => none

end ResolverDefs

/-- A line of the `go list` output that the loop of `getMains` does not skip:
it is not empty and holds the separator `'|'`. -/
def wellFormed (line : GoString) : Bool :=
  decide (line ≠ [] ∧ '|' ∈ line)

/-- The output text with the empty lines and the lines without `'|'` removed. -/
def dropMalformed (output : GoString) : GoString :=
  Join ((Split output '\n').filter wellFormed) '\n'

/-- The text of a line before its first `'|'`. -/
def nameOf (line : GoString) : GoString :=
  line.takeWhile (fun c => decide (c ≠ '|'))

/-- The text of a line after its first `'|'`. -/
def importPathOf (line : GoString) : GoString :=
  (line.dropWhile (fun c => decide (c ≠ '|'))).drop 1

/-- The packages that are "main" packages, read off the lines of the output:
of each line with a `'|'` whose text before the first `'|'` is `main`, the text
after that `'|'`, in line order. -/
def mainPackages (lines : List GoString) : List GoString :=
  (lines.filter (fun l => decide ('|' ∈ l ∧ nameOf l = mainName))).map importPathOf

/-- What one line contributes to `results`. -/
def lineResult (line : GoString) : Option GoString :=
  if '|' ∈ line ∧ nameOf line = mainName then some (importPathOf line) else none

/-- Example: a `go list` output with two main packages (one import path holding
a `'|'`), a library package, a line without separator and an empty last line. -/
def exampleOutput : GoString :=
  "main|github.com/a/cmd\nlib|github.com/a/lib\nBad line\nmain|x|y\n".toList

/-- The lines `build` prints for a list of artifacts: for each artifact in
order a rule, its `Name`, a rule, its `Source` and a closing rule. -/
def printedLines : List File → List GoString
  | [] => []
  | file :: files =>
    "---".toList :: file.Name :: "---".toList :: file.Source :: "===".toList
      :: printedLines files

/-- The names of the methods an interface requires, that is of its method set:
the declared methods together with the methods of the embedded interfaces. -/
def requiredMethodNames : List Field → List GoString
  | [] => []
  | field :: fields =>
    match field.Type_ with
    | .funcType => field.Names ++ requiredMethodNames fields
    | .embedded methodNames => methodNames ++ requiredMethodNames fields

/-- Example: the declaration
`type ReadWriter interface { Reader; Write() }`, where `Reader` is an interface
with the single method `Read`, with a `js` tag carrying the `omit` flag. -/
def readWriterSpec : TypeSpec :=
  { Doc := ["js:".toList ++ [Char.ofNat 34] ++ "readWriter,omit".toList ++ [Char.ofNat 34]],
    Name := "ReadWriter".toList,
    Type_ := .InterfaceType
      [{ Names := [], Type_ := .embedded ["Read".toList] },
       { Names := ["Write".toList], Type_ := .funcType }] }

/-- Example: the interface definition that `NewInterface` returns for
`readWriterSpec` in package `main`. -/
def readWriter : ifacedef Nat :=
  { exported := true, path := "main".toList, name := "ReadWriter".toList,
    id := "main ReadWriter".toList, methods := ["Write".toList],
    node := readWriterSpec, kind := 0 }

/-- Example: two artifacts returned by `compiler.Compile`. -/
def exampleFiles : List File :=
  [{ Name := "a.js".toList, Source := "var a".toList },
   { Name := "b.js".toList, Source := "var b".toList }]

/-- Example: a compile error. -/
def exampleError : GoError := .plain "type error".toList

/-- Example: the method `Area` of the type `Circle`. -/
def circleArea : Method GoString :=
  { id := "main Circle Area".toList, name := "Area".toList, path := "main".toList,
    recv := "Circle".toList }

/-- Example: the method `Area` of the type `Square`. -/
def squareArea : Method GoString :=
  { id := "main Square Area".toList, name := "Area".toList, path := "main".toList,
    recv := "Square".toList }

/-- Example: the method `Perimeter` of the type `Square`. -/
def squarePerimeter : Method GoString :=
  { id := "main Square Perimeter".toList, name := "Perimeter".toList, path := "main".toList,
    recv := "Square".toList }

/-- Example: a method `Area` of a type `Plot` that does not implement `Shape`. -/
def plotArea : Method GoString :=
  { id := "main Plot Area".toList, name := "Area".toList, path := "main".toList,
    recv := "Plot".toList }

/-- Example judgment: `Circle` and `Square` implement every interface kind,
no other type does. -/
def exampleImplements (ty : GoString) (_kind : Nat) : Bool :=
  decide (ty = "Circle".toList ∨ ty = "Square".toList)

/-- Example: the declaration `type Shape interface { Area() float64 }`. -/
def shapeSpec : TypeSpec :=
  { Doc := [], Name := "Shape".toList,
    Type_ := .InterfaceType [{ Names := ["Area".toList], Type_ := .funcType }] }

/-- Example: the package information of package `main`. -/
def mainInfo : PackageInfo Nat :=
  { objPkgPath := fun _ => "main".toList
    objExported := fun _ => true
    typeOfInterface := fun e => match e with
      | .InterfaceType _ => some 0
      | .otherExpr => none }

/-- Example: the interface definition `Shape`, as `NewInterface` builds it. -/
def shape : ifacedef Nat :=
  { exported := true, path := "main".toList, name := "Shape".toList,
    id := "main Shape".toList, methods := ["Area".toList], node := shapeSpec, kind := 0 }

/-- Example: an index in registration order. -/
def exampleIndex : List (Definition GoString) :=
  [.other "main Shape".toList "Shape".toList "main".toList,
   .method circleArea,
   .method squarePerimeter,
   .method squareArea,
   .other "main main".toList "main".toList "main".toList]

/-! ## The reachability analyzer and the omission rule

The analyzer and the emitter are not among the source files; they are modelled
from sections 3, 4.1, 4.3 and 4.4 of the specification. -/

/-- The `ID()` of a definition. -/
def Definition.ID {Ty : Type} : Definition Ty → GoString
  | .method m => m.id
  | .other id _ _ => id

/-- Modelled from the spec: the interface `def.Definition` (package
`golang/def`, missing) as the Reachability Analyzer and the emitter read it
(section 3): the `ID`, the definitions returned by `Dependencies()`, named by
their IDs, and the flag `Omitted`. -/
structure Entry where
  ID : GoString
  Dependencies : List GoString
  Omitted : Bool
  deriving DecidableEq, Repr

/-- An interface definition as an entry of the index: each field is the value
of the accessor of `ifacedef` of the same name. -/
def ifacedef.entry {Kind : Type} (Ty : Type) (d : ifacedef Kind) : Entry :=
  { ID := d.ID
    Dependencies := (d.Dependencies Ty).1.map Definition.ID
    Omitted := d.Omitted }

/-- Modelled from the spec: `Get(id)` of the Definition Index (package
`golang/index`, missing; section 4.1), on the entries in registration order. -/
def Get (index : List Entry) (id : GoString) : Option Entry :=
  index.find? (fun e => decide (e.ID = id))

/-- Modelled from the spec: the dependency edges of the definition graph that
the Reachability Analyzer (missing) traverses (section 4.3): one edge from each
definition to each of its `Dependencies()`. -/
def edges : List Entry → List (GoString × GoString)
  | [] => []
  | e :: es => e.Dependencies.map (fun t => (e.ID, t)) ++ edges es

/-- Modelled from the spec: the depth-first traversal of the Reachability
Analyzer (missing; section 4.3) from one definition, with the visited-set
membership check before recursing.  `fuel` bounds the depth of the recursion;
a definition missing from the index is not marked. -/
def visit (index : List Entry) : Nat → List GoString → GoString → List GoString
  | 0, visited, _ => visited
  | fuel + 1, visited, id =>
    if id ∈ visited then visited
    else
      match Get index id with
      | none => visited
      | some e => e.Dependencies.foldl (visit index fuel) (visited ++ [id])

/-- Modelled from the spec: output (a) of the Reachability Analyzer (missing;
section 4.3), the reachable subset of definitions from the entry points.  A
branch of the traversal marks a new definition at every level, so its depth is
at most the number of entries. -/
def reachable (index : List Entry) (entryPoints : List GoString) : List GoString :=
  entryPoints.foldl (visit index (index.length + 1)) []

/-- Modelled from the spec: the omission rule of the emitter (missing; sections
4.4 and 8): the reachable definitions that are emitted are those not marked
`Omitted`. -/
def emitted (index : List Entry) (entryPoints : List GoString) : List GoString :=
  (reachable index entryPoints).filter (fun id =>
    match Get index id with
    | some e => !e.Omitted
    | none => false)

/-- Example: an index with the function `main`, which depends on the interface
`ReadWriter` and on the omitted struct `WebKitPoint`, and a function `unused`
that nothing depends on. -/
def exampleEntries : List Entry :=
  [{ ID := "main main".toList,
     Dependencies := ["main ReadWriter".toList, "webkitpoint WebKitPoint".toList],
     Omitted := false },
   readWriter.entry GoString,
   { ID := "webkitpoint WebKitPoint".toList, Dependencies := [], Omitted := true },
   { ID := "main unused".toList, Dependencies := ["main ReadWriter".toList],
     Omitted := false }]

/-! # Theorems -/

/-! ## The interface resolver -/

section Resolver

variable {Ty Kind : Type}

theorem implementedByStep_eq (implements : Ty → Kind → Bool) (d : ifacedef Kind)
    (meth : GoString) (defs : List (Method Ty)) (n : Definition Ty) :
    ifacedef.implementedByStep implements d meth defs n
      = defs ++ (selects implements d meth n).toList := by
  cases n with
  | other id name path => simp [ifacedef.implementedByStep, selects, Definition.asMethod]
  | method m =>
    by_cases hn : m.name = meth <;> by_cases hi : implements m.recv d.kind = true <;>
      simp [ifacedef.implementedByStep, selects, Definition.asMethod, hn, hi]

theorem foldl_implementedByStep (implements : Ty → Kind → Bool) (d : ifacedef Kind)
    (meth : GoString) (all : List (Definition Ty)) (defs : List (Method Ty)) :
    all.foldl (ifacedef.implementedByStep implements d meth) defs
      = defs ++ all.filterMap (selects implements d meth) := by
  induction all generalizing defs with
  | nil => simp
  | cons n ns ih =>
    rw [List.foldl_cons, ih, implementedByStep_eq, List.filterMap_cons]
    cases selects implements d meth n <;> simp

theorem ImplementedBy_eq_filterMap (implements : Ty → Kind → Bool)
    (all : List (Definition Ty)) (d : ifacedef Kind) (meth : GoString) :
    d.ImplementedBy implements all meth = all.filterMap (selects implements d meth) := by
  simp [ifacedef.ImplementedBy, foldl_implementedByStep]

theorem selects_eq_some (implements : Ty → Kind → Bool) (d : ifacedef Kind)
    (meth : GoString) (n : Definition Ty) (m : Method Ty) :
    selects implements d meth n = some m
      ↔ n = .method m ∧ m.name = meth ∧ implements m.recv d.kind = true := by
  cases n with
  | other id name path => simp [selects]
  | method m0 =>
    simp only [selects]
    constructor
    · intro h
      split at h
      · rename_i hc
        injection h with h
        subst h
        exact ⟨rfl, hc.1, hc.2⟩
      · cases h
    · rintro ⟨h, hn, hi⟩
      injection h with h
      subst h
      simp [hn, hi]

theorem filterMap_selects_sublist (implements : Ty → Kind → Bool) (d : ifacedef Kind)
    (meth : GoString) (all : List (Definition Ty)) :
    ((all.filterMap (selects implements d meth)).map Definition.method).Sublist all := by
  induction all with
  | nil => simp
  | cons n ns ih =>
    rw [List.filterMap_cons]
    cases h : selects implements d meth n with
    | none => exact ih.trans (List.sublist_cons_self n ns)
    | some m =>
      have hn := ((selects_eq_some implements d meth n m).1 h).1
      subst hn
      simpa using ih

theorem ImplementedBy_append (implements : Ty → Kind → Bool)
    (xs ys : List (Definition Ty)) (d : ifacedef Kind) (meth : GoString) :
    d.ImplementedBy implements (xs ++ ys) meth
      = d.ImplementedBy implements xs meth ++ d.ImplementedBy implements ys meth := by
  simp [ImplementedBy_eq_filterMap]

theorem selects_eq_none_of_not_implements (implements : Ty → Kind → Bool)
    (d : ifacedef Kind) (meth : GoString) (n : Definition Ty)
    (h : ∀ m, n.asMethod = some m → implements m.recv d.kind = false) :
    selects implements d meth n = none := by
  cases n with
  | other id name path => rfl
  | method m =>
    have := h m rfl
    simp [selects, this]

/-- C1: a definition is in the result of `ImplementedBy(I, m)` exactly when it
is an entry of `index.All()` that is a Method, is named `m`, and whose receiver
type satisfies the interface kind under the type-checker judgment; entries that
are not Methods, or Methods with another name, are never returned. -/
theorem ImplementedBy_mem_iff (implements : Ty → Kind → Bool)
    (all : List (Definition Ty)) (I : ifacedef Kind) (m : GoString) (n : Definition Ty) :
    n ∈ (I.ImplementedBy implements all m).map Definition.method
      ↔ n ∈ all ∧ ∃ d, n.asMethod = some d ∧ n.Name = m
          ∧ implements d.recv I.kind = true := by
  rw [ImplementedBy_eq_filterMap]
  simp only [List.mem_map, List.mem_filterMap, selects_eq_some]
  constructor
  · rintro ⟨d, ⟨a, ha, rfl, hn, hi⟩, rfl⟩
    exact ⟨ha, d, rfl, hn, hi⟩
  · rintro ⟨hn, d, hd, hname, hi⟩
    cases n with
    | other id name path => cases hd
    | method m0 =>
      injection hd with hd
      subst hd
      exact ⟨m0, ⟨_, hn, rfl, hname, hi⟩, rfl⟩

/-- C1, on the example index: `ImplementedBy(Shape, "Area")` holds `Circle.Area`
and not `Square.Perimeter`. -/
theorem ImplementedBy_mem_iff_witness :
    (Definition.method circleArea
        ∈ (shape.ImplementedBy exampleImplements exampleIndex "Area".toList).map
            Definition.method)
      ∧ ¬ (Definition.method squarePerimeter
        ∈ (shape.ImplementedBy exampleImplements exampleIndex "Area".toList).map
            Definition.method) :=
  ⟨(ImplementedBy_mem_iff exampleImplements exampleIndex shape "Area".toList
      (.method circleArea)).2 ⟨by decide, circleArea, rfl, by decide, by decide⟩,
   fun h => absurd ((ImplementedBy_mem_iff exampleImplements exampleIndex shape
      "Area".toList (.method squarePerimeter)).1 h).2 (by
        rintro ⟨d, hd, hn, _⟩
        exact absurd hn (by decide))⟩

/-- C2: the result of `ImplementedBy(I, m)`, read as index entries, is a
sublist of `index.All()`: the returned Methods keep the registration order of
the index and no entry is returned more often than it is registered. -/
theorem ImplementedBy_sublist [DecidableEq Ty] (implements : Ty → Kind → Bool)
    (all : List (Definition Ty)) (I : ifacedef Kind) (m : GoString) :
    ((I.ImplementedBy implements all m).map Definition.method).Sublist all
      ∧ ∀ n : Definition Ty,
          ((I.ImplementedBy implements all m).map Definition.method).count n
            ≤ all.count n := by
  have h : ((I.ImplementedBy implements all m).map Definition.method).Sublist all := by
    rw [ImplementedBy_eq_filterMap]
    exact filterMap_selects_sublist implements I m all
  exact ⟨h, fun n => h.count_le n⟩

/-- C2, on the example index, where `Circle.Area` is registered before
`Square.Area`: the result is `[Circle.Area, Square.Area]`, a sublist of the
index. -/
theorem ImplementedBy_sublist_witness :
    shape.ImplementedBy exampleImplements exampleIndex "Area".toList
        = [circleArea, squareArea]
      ∧ ([circleArea, squareArea].map Definition.method).Sublist exampleIndex :=
  ⟨by decide,
   (ImplementedBy_sublist exampleImplements exampleIndex shape "Area".toList).1⟩

/-- C3: registering one more definition whose receiver type does not satisfy
`I` (or that has no receiver at all), whatever its name, leaves
`ImplementedBy(I, m)` unchanged, wherever in the index it is put; and
`ImplementedBy` over an index `xs ++ ys` is `ImplementedBy` over `xs` followed
by `ImplementedBy` over `ys`. -/
theorem ImplementedBy_unrelated (implements : Ty → Kind → Bool)
    (all : List (Definition Ty)) (I : ifacedef Kind) (m : GoString) (n : Definition Ty)
    (h : ∀ d, n.asMethod = some d → implements d.recv I.kind = false) :
    I.ImplementedBy implements (all ++ [n]) m = I.ImplementedBy implements all m
      ∧ (∀ xs ys : List (Definition Ty),
          I.ImplementedBy implements (xs ++ n :: ys) m
            = I.ImplementedBy implements (xs ++ ys) m)
      ∧ (∀ xs ys : List (Definition Ty),
          I.ImplementedBy implements (xs ++ ys) m
            = I.ImplementedBy implements xs m ++ I.ImplementedBy implements ys m) := by
  have hn := selects_eq_none_of_not_implements implements I m n h
  refine ⟨?_, ?_, fun xs ys => ImplementedBy_append implements xs ys I m⟩
  · simp [ImplementedBy_eq_filterMap, List.filterMap_append, hn]
  · intro xs ys
    simp [ImplementedBy_eq_filterMap, List.filterMap_append, List.filterMap_cons, hn]

/-- C3, on the example index: registering `Plot.Area`, a method named `Area`
on a type that does not implement `Shape`, leaves the result unchanged. -/
theorem ImplementedBy_unrelated_witness :
    exampleImplements plotArea.recv shape.kind = false
      ∧ shape.ImplementedBy exampleImplements (exampleIndex ++ [.method plotArea])
          "Area".toList
        = shape.ImplementedBy exampleImplements exampleIndex "Area".toList :=
  ⟨by decide,
   (ImplementedBy_unrelated exampleImplements exampleIndex shape "Area".toList
      (.method plotArea) (by
        intro d hd
        injection hd with hd
        subst hd
        decide)).1⟩

/-- C4: `ImplementedBy` is a total function returning a list; when no Method
in the index is named `m` the list is empty, and so it is on the empty index. -/
theorem ImplementedBy_no_match (implements : Ty → Kind → Bool)
    (all : List (Definition Ty)) (I : ifacedef Kind) (m : GoString)
    (h : ∀ n ∈ all, ∀ d, n.asMethod = some d → d.name ≠ m) :
    I.ImplementedBy implements all m = []
      ∧ I.ImplementedBy implements ([] : List (Definition Ty)) m = [] := by
  refine ⟨?_, rfl⟩
  rw [ImplementedBy_eq_filterMap, List.filterMap_eq_nil_iff]
  intro n hn
  cases hs : selects implements I m n with
  | none => rfl
  | some d =>
    obtain ⟨rfl, hname, _⟩ := (selects_eq_some implements I m n d).1 hs
    exact absurd hname (h _ hn d rfl)

/-- C4, on the example index: no Method is named `Volume`, and the result for
that name is the empty list. -/
theorem ImplementedBy_no_match_witness :
    shape.ImplementedBy exampleImplements exampleIndex "Volume".toList = [] :=
  (ImplementedBy_no_match exampleImplements exampleIndex shape "Volume".toList
    (by decide)).1

end Resolver

/-! ## `strings.Split`, `strings.SplitN` -/

theorem cut_eq_none (sep : Char) (s : GoString) (h : sep ∉ s) : cut sep s = none := by
  induction s with
  | nil => rfl
  | cons c cs ih =>
    have hc : c ≠ sep := fun e => h (by simp [e])
    have hcs : sep ∉ cs := fun e => h (by simp [e])
    simp [cut, hc, ih hcs]

theorem cut_ne_none_of_mem (sep : Char) (s : GoString) (h : sep ∈ s) :
    cut sep s ≠ none := by
  induction s with
  | nil => simp at h
  | cons c cs ih =>
    by_cases hc : c = sep
    · simp [cut, hc]
    · have hcs : sep ∈ cs := by
        rcases List.mem_cons.1 h with e | e
        · exact absurd e.symm hc
        · exact e
      have := ih hcs
      simp only [cut, hc, if_false]
      cases hcut : cut sep cs with
      | none => exact absurd hcut this
      | some p => simp

theorem cut_append (sep : Char) (a r : GoString) (h : sep ∉ a) :
    cut sep (a ++ sep :: r) = some (a, r) := by
  induction a with
  | nil => simp [cut]
  | cons c cs ih =>
    have hc : c ≠ sep := fun e => h (by simp [e])
    have hcs : sep ∉ cs := fun e => h (by simp [e])
    simp [cut, hc, ih hcs]

theorem cut_eq_some (sep : Char) (s a r : GoString) (h : cut sep s = some (a, r)) :
    s = a ++ sep :: r ∧ sep ∉ a := by
  induction s generalizing a with
  | nil => simp [cut] at h
  | cons c cs ih =>
    by_cases hc : c = sep
    · simp [cut, hc] at h
      obtain ⟨rfl, rfl⟩ := h
      simp [hc]
    · simp only [cut, hc, if_false] at h
      cases hcut : cut sep cs with
      | none => simp [hcut] at h
      | some p =>
        obtain ⟨a0, r0⟩ := p
        simp only [hcut, Option.some.injEq, Prod.mk.injEq] at h
        obtain ⟨rfl, rfl⟩ := h
        obtain ⟨h1, h2⟩ := ih a0 hcut
        refine ⟨by simp [← h1], ?_⟩
        simp only [List.mem_cons, not_or]
        exact ⟨fun e => hc e.symm, h2⟩

theorem cut_of_mem (s : GoString) (h : '|' ∈ s) :
    cut '|' s = some (nameOf s, importPathOf s) := by
  induction s with
  | nil => simp at h
  | cons c cs ih =>
    by_cases hc : c = '|'
    · simp [cut, hc, nameOf, importPathOf, List.takeWhile, List.dropWhile]
    · have hcs : '|' ∈ cs := by
        rcases List.mem_cons.1 h with e | e
        · exact absurd e.symm hc
        · exact e
      have := ih hcs
      simp only [nameOf, importPathOf] at this
      simp [cut, hc, this, nameOf, importPathOf, List.takeWhile, List.dropWhile]

theorem splitLoop_no_sep (sep : Char) (k : Nat) (s : GoString) (hk : s.count sep ≤ k) :
    ∀ l ∈ splitLoop sep k s, sep ∉ l := by
  induction k generalizing s with
  | zero =>
    intro l hl
    simp only [splitLoop, List.mem_singleton] at hl
    subst hl
    exact List.count_eq_zero.1 (Nat.le_zero.1 hk)
  | succ k ih =>
    intro l hl
    simp only [splitLoop] at hl
    cases hcut : cut sep s with
    | none =>
      simp only [hcut, List.mem_singleton] at hl
      subst hl
      intro hmem
      exact cut_ne_none_of_mem sep l hmem hcut
    | some p =>
      obtain ⟨a, r⟩ := p
      simp only [hcut, List.mem_cons] at hl
      obtain ⟨e, ha⟩ := cut_eq_some sep s a r hcut
      rcases hl with rfl | hl
      · exact ha
      · refine ih r ?_ l hl
        have hc : s.count sep = r.count sep + 1 := by
          rw [e, List.count_append, List.count_cons_self, List.count_eq_zero.2 ha]
          omega
        omega

theorem splitLoop_Join (sep : Char) (ls : List GoString) (hne : ls ≠ [])
    (hls : ∀ l ∈ ls, sep ∉ l) (k : Nat) (hk : (Join ls sep).count sep ≤ k) :
    splitLoop sep k (Join ls sep) = ls := by
  induction ls generalizing k with
  | nil => exact absurd rfl hne
  | cons e es ih =>
    cases es with
    | nil =>
      have he : sep ∉ e := hls e (by simp)
      cases k with
      | zero => simp [Join, splitLoop]
      | succ k => simp [Join, splitLoop, cut_eq_none sep e he]
    | cons e2 es =>
      have he : sep ∉ e := hls e (by simp)
      have hj : Join (e :: e2 :: es) sep = e ++ sep :: Join (e2 :: es) sep := rfl
      rw [hj] at hk ⊢
      rw [List.count_append, List.count_cons_self, List.count_eq_zero.2 he] at hk
      cases k with
      | zero => omega
      | succ k =>
        simp only [splitLoop, cut_append sep e _ he]
        rw [ih (by simp) (fun l hl => hls l (by simp [hl])) k (by omega)]

/-! ## `NewInterface` and the accessors -/

theorem foldl_append_singleton (names acc : List GoString) :
    names.foldl (fun methods method => methods ++ [method]) acc = acc ++ names := by
  induction names generalizing acc with
  | nil => simp
  | cons x xs ih => simp [List.foldl_cons, ih]

theorem collectMethods_foldl (fields : List Field) (acc : List GoString) :
    fields.foldl (fun methods list =>
        list.Names.foldl (fun methods method => methods ++ [method]) methods) acc
      = acc ++ (fields.map Field.Names).flatten := by
  induction fields generalizing acc with
  | nil => simp
  | cons f fs ih =>
    rw [List.foldl_cons, foldl_append_singleton, ih]
    simp

theorem collectMethods_eq (fields : List Field) :
    collectMethods fields = (fields.map Field.Names).flatten := by
  simp [collectMethods, collectMethods_foldl]

theorem NewInterface_ok {Kind : Type} (info : PackageInfo Kind) (n : TypeSpec)
    (d : ifacedef Kind) (h : NewInterface info n = .ok d) :
    d.id = joinId (info.objPkgPath n.Name) n.Name
      ∧ d.path = info.objPkgPath n.Name ∧ d.name = n.Name ∧ d.node = n
      ∧ ∃ fields, n.Type_ = .InterfaceType fields ∧ d.methods = collectMethods fields := by
  unfold NewInterface at h
  simp only at h
  split at h
  · cases h
  · rename_i fields hf
    split at h
    · cases h
    · injection h with h
      subst h
      exact ⟨rfl, rfl, rfl, rfl, fields, hf, rfl⟩

theorem joinId_injective (p1 n1 p2 n2 : GoString) (h1 : ' ' ∉ n1) (h2 : ' ' ∉ n2)
    (h : joinId p1 n1 = joinId p2 n2) : p1 = p2 ∧ n1 = n2 := by
  have hr : n1.reverse ++ ' ' :: p1.reverse = n2.reverse ++ ' ' :: p2.reverse := by
    have := congrArg List.reverse h
    simpa [joinId, idSep] using this
  have c1 := cut_append ' ' n1.reverse p1.reverse (by simpa using h1)
  have c2 := cut_append ' ' n2.reverse p2.reverse (by simpa using h2)
  rw [hr, c2] at c1
  simp only [Option.some.injEq, Prod.mk.injEq] at c1
  exact ⟨(List.reverse_injective c1.2).symm, (List.reverse_injective c1.1).symm⟩

/-! ## `getMains` -/

theorem SplitN_two_of_mem (line : GoString) (h : '|' ∈ line) :
    SplitN line '|' 2 = [nameOf line, importPathOf line] := by
  simp [SplitN, splitLoop, cut_of_mem line h]

theorem SplitN_two_of_not_mem (line : GoString) (h : '|' ∉ line) :
    SplitN line '|' 2 = [line] := by
  simp [SplitN, splitLoop, cut_eq_none '|' line h]

theorem parseStep_results (st : ParseState) (line : GoString) :
    (parseStep st line).results = st.results ++ (lineResult line).toList := by
  by_cases hl : line = []
  · subst hl
    simp [parseStep, lineResult]
  · by_cases hm : '|' ∈ line
    · by_cases hn : nameOf line = mainName
      · simp [parseStep, hl, SplitN_two_of_mem line hm, lineResult, hm, hn]
      · simp [parseStep, hl, SplitN_two_of_mem line hm, lineResult, hm, hn]
    · simp [parseStep, hl, SplitN_two_of_not_mem line hm, lineResult, hm]

theorem foldl_parseStep_results (lines : List GoString) (st : ParseState) :
    (lines.foldl parseStep st).results = st.results ++ lines.filterMap lineResult := by
  induction lines generalizing st with
  | nil => simp
  | cons l ls ih =>
    rw [List.foldl_cons, ih, parseStep_results, List.filterMap_cons]
    cases lineResult l <;> simp

theorem parseLines_results (lines : List GoString) :
    (parseLines lines).results = lines.filterMap lineResult := by
  simp [parseLines, foldl_parseStep_results]

theorem filterMap_lineResult (lines : List GoString) :
    lines.filterMap lineResult = mainPackages lines := by
  induction lines with
  | nil => rfl
  | cons l ls ih =>
    simp only [mainPackages] at ih
    by_cases h : '|' ∈ l ∧ nameOf l = mainName
    · simp [List.filterMap_cons, lineResult, mainPackages, List.filter_cons, h, ih]
    · simp [List.filterMap_cons, lineResult, mainPackages, List.filter_cons, h, ih]

theorem lineResult_of_not_wellFormed (l : GoString) (h : wellFormed l = false) :
    lineResult l = none := by
  have hm : '|' ∉ l := by
    intro hm
    have hne : l ≠ [] := by
      rintro rfl
      simp at hm
    simp [wellFormed, hm, hne] at h
  simp [lineResult, hm]

theorem filterMap_lineResult_filter (lines : List GoString) :
    (lines.filter wellFormed).filterMap lineResult = lines.filterMap lineResult := by
  induction lines with
  | nil => rfl
  | cons l ls ih =>
    cases h : wellFormed l with
    | true => simp [List.filter_cons, h, List.filterMap_cons, ih]
    | false =>
      simp [List.filter_cons, h, List.filterMap_cons, ih,
        lineResult_of_not_wellFormed l h]

theorem Split_no_sep (sep : Char) (s : GoString) : ∀ l ∈ Split s sep, sep ∉ l :=
  splitLoop_no_sep sep _ s (Nat.le_refl _)

theorem Split_Join (sep : Char) (ls : List GoString) (hne : ls ≠ [])
    (hls : ∀ l ∈ ls, sep ∉ l) : Split (Join ls sep) sep = ls :=
  splitLoop_Join sep ls hne hls _ (Nat.le_refl _)

theorem parseOutput_dropMalformed (output : GoString) :
    (parseOutput (dropMalformed output)).results = (parseOutput output).results := by
  simp only [parseOutput, dropMalformed, parseLines_results]
  rw [← filterMap_lineResult_filter (Split output '\n')]
  by_cases hne : (Split output '\n').filter wellFormed = []
  · rw [hne]
    simp [Join, Split, splitLoop, lineResult]
  · rw [Split_Join '\n' _ hne
      (fun l hl => Split_no_sep '\n' output l (List.mem_of_mem_filter hl))]

/-- C5: malformed lines of the `go list` output are skipped and never abort
`getMains`: once the `go` command has produced `output`, the returned error is
nil, the returned slice is what the parsing loop collected, and that slice is
the same as for the output with the empty lines and the lines without `'|'`
removed (both on the text and on the list of lines). -/
theorem getMains_skips_malformed (goCmd : GoString)
    (execGo : GoString → List GoString → Except GoError GoString)
    (packages : List GoString) (output : GoString)
    (hexec : execGo goCmd (goListArgs packages) = .ok output) :
    (getMains (.ok goCmd) execGo packages).1 = .ok (parseOutput output).results
      ∧ (parseOutput (dropMalformed output)).results = (parseOutput output).results
      ∧ ∀ lines : List GoString,
          (parseLines (lines.filter wellFormed)).results = (parseLines lines).results := by
  refine ⟨by simp [getMains, hexec], parseOutput_dropMalformed output, fun lines => ?_⟩
  rw [parseLines_results, parseLines_results, filterMap_lineResult_filter]

/-- C5, on the example output: the line `Bad line` and the empty last line are
skipped, the error is nil and the two main packages are returned. -/
theorem getMains_skips_malformed_witness :
    (getMains (.ok "go".toList) (fun _ _ => .ok exampleOutput) ["./...".toList]).1
        = .ok ["github.com/a/cmd".toList, "x|y".toList]
      ∧ (parseOutput (dropMalformed exampleOutput)).results
        = (parseOutput exampleOutput).results :=
  ⟨by rfl,
   (getMains_skips_malformed "go".toList (fun _ _ => .ok exampleOutput)
      ["./...".toList] exampleOutput rfl).2.1⟩

/-- C6: once the `go` command has produced `output`, `getMains` returns with a
nil error exactly the main packages: in line order, the text after the first
`'|'` of each line that has a `'|'` and whose text before the first `'|'` is
`main` (an import path holding a `'|'` is kept whole, lines of other packages
are not returned); the result has at most as many entries as the output has
lines; and when every line is empty or holds a `'|'`, the test for the `'|'`
can be left out of the description. -/
theorem getMains_returns_mains (goCmd : GoString)
    (execGo : GoString → List GoString → Except GoError GoString)
    (packages : List GoString) (output : GoString)
    (hexec : execGo goCmd (goListArgs packages) = .ok output) :
    (getMains (.ok goCmd) execGo packages).1 = .ok (mainPackages (Split output '\n'))
      ∧ (mainPackages (Split output '\n')).length ≤ (Split output '\n').length
      ∧ ((∀ l ∈ Split output '\n', l = [] ∨ '|' ∈ l) →
          mainPackages (Split output '\n')
            = ((Split output '\n').filter
                (fun l => decide (nameOf l = mainName))).map importPathOf) := by
  refine ⟨?_, ?_, ?_⟩
  · simp [getMains, hexec, parseOutput, parseLines_results, filterMap_lineResult]
  · rw [← filterMap_lineResult]
    exact List.length_filterMap_le _ _
  · intro h
    simp only [mainPackages]
    congr 1
    apply List.filter_congr
    intro l hl
    rcases h l hl with rfl | hm
    · simp [nameOf, mainName]
    · simp [hm]

/-- C6, on the example output: the two main packages are returned in line
order, the import path `x|y` whole, and the package `lib` is not. -/
theorem getMains_returns_mains_witness :
    mainPackages (Split exampleOutput '\n') = ["github.com/a/cmd".toList, "x|y".toList]
      ∧ (getMains (.ok "go".toList) (fun _ _ => .ok exampleOutput) ["./...".toList]).1
        = .ok (mainPackages (Split exampleOutput '\n')) :=
  ⟨by decide,
   (getMains_returns_mains "go".toList (fun _ _ => .ok exampleOutput)
      ["./...".toList] exampleOutput rfl).1⟩

/-! ## `build` -/

theorem foldl_printFile (files : List File) (stdout : List GoString) :
    files.foldl printFile stdout = stdout ++ printedLines files := by
  induction files generalizing stdout with
  | nil => simp [printedLines]
  | cons f fs ih => simp [List.foldl_cons, ih, printFile, printedLines]

/-- C7: the ID of a definition returned by `NewInterface` is its package path,
a space and its declared name, `ID() = Path() ++ " " ++ Name()`, with `Path()`
the package path of the declared object and `Name()` the declared name; and for
two declarations whose names hold no space, equal IDs imply equal package
paths and equal names. -/
theorem NewInterface_ID_unique {Kind : Type} (info1 : PackageInfo Kind) (n1 : TypeSpec)
    (d1 : ifacedef Kind) (h1 : NewInterface info1 n1 = .ok d1) :
    d1.ID = d1.Path ++ " ".toList ++ d1.Name
      ∧ d1.Path = info1.objPkgPath n1.Name ∧ d1.Name = n1.Name
      ∧ ∀ (info2 : PackageInfo Kind) (n2 : TypeSpec) (d2 : ifacedef Kind),
          NewInterface info2 n2 = .ok d2 → ' ' ∉ n1.Name → ' ' ∉ n2.Name →
          d1.ID = d2.ID →
            info1.objPkgPath n1.Name = info2.objPkgPath n2.Name ∧ n1.Name = n2.Name
              ∧ d1.Path = d2.Path ∧ d1.Name = d2.Name := by
  obtain ⟨hid1, hp1, hn1, _, _⟩ := NewInterface_ok info1 n1 d1 h1
  refine ⟨?_, hp1, hn1, ?_⟩
  · simp only [ifacedef.ID, ifacedef.Path, ifacedef.Name, hid1, hp1, hn1]
    rfl
  · intro info2 n2 d2 h2 hs1 hs2 hid
    obtain ⟨hid2, hp2, hn2, _, _⟩ := NewInterface_ok info2 n2 d2 h2
    simp only [ifacedef.ID, hid1, hid2] at hid
    obtain ⟨hp, hn⟩ := joinId_injective _ _ _ _ hs1 hs2 hid
    refine ⟨hp, hn, ?_, ?_⟩
    · simp only [ifacedef.Path, hp1, hp2, hp]
    · simp only [ifacedef.Name, hn1, hn2, hn]

/-- C7, on the declaration of `Shape` in package `main`: the ID is
`main Shape`. -/
theorem NewInterface_ID_unique_witness :
    NewInterface mainInfo shapeSpec = .ok shape
      ∧ shape.ID = "main Shape".toList
      ∧ shape.ID = shape.Path ++ " ".toList ++ shape.Name :=
  ⟨rfl, rfl, (NewInterface_ID_unique mainInfo shapeSpec shape rfl).1⟩

/-- C8: once `getMains` has returned the packages, `build` gives no partial
output on a compile error: when `compiler.Compile` returns a non-nil error
`e`, whatever artifacts it returns with it, `build` prints nothing and returns
`e` wrapped with the context `error building packages`; when it returns a nil
error, `build` prints the `Name` and `Source` of every artifact in the
returned order and returns nil. -/
theorem build_no_partial_output (lookPath : Except GoError GoString)
    (execGo : GoString → List GoString → Except GoError GoString)
    (buildPackages : List GoString) (pathJoin : GoString → GoString)
    (compile : List GoString → List File × Option GoError)
    (packages warnings : List GoString) (files : List File) (e : Option GoError)
    (hmains : getMains lookPath execGo buildPackages = (.ok packages, warnings))
    (hcompile : compile (packages.map pathJoin) = (files, e)) :
    (∀ err, e = some err →
        build lookPath execGo buildPackages pathJoin compile
            = { stdout := [], warnings := warnings,
                err := some (.wrap err "error building packages".toList) }
          ∧ (GoError.wrap err "error building packages".toList).Error
            = "error building packages: ".toList ++ err.Error
          ∧ (GoError.wrap err "error building packages".toList).Cause = err.Cause)
      ∧ (e = none →
        build lookPath execGo buildPackages pathJoin compile
          = { stdout := printedLines files, warnings := warnings, err := none }) := by
  constructor
  · intro err he
    subst he
    refine ⟨?_, ?_, rfl⟩
    · simp [build, hmains, hcompile]
    · simp [GoError.Error]
  · intro he
    subst he
    simp [build, hmains, hcompile, foldl_printFile]

/-- C8, on an example: with a compile error returned together with two
artifacts nothing is printed and the wrapped error is returned; with the same
artifacts and a nil error their names and sources are printed in order. -/
theorem build_no_partial_output_witness :
    build (.ok "go".toList) (fun _ _ => .ok exampleOutput) ["./...".toList] id
        (fun _ => (exampleFiles, some exampleError))
        = { stdout := [], warnings := ["Bad line".toList],
            err := some (.wrap exampleError "error building packages".toList) }
      ∧ build (.ok "go".toList) (fun _ _ => .ok exampleOutput) ["./...".toList] id
          (fun _ => (exampleFiles, none))
        = { stdout := printedLines exampleFiles, warnings := ["Bad line".toList],
            err := none }
      ∧ printedLines exampleFiles
        = ["---".toList, "a.js".toList, "---".toList, "var a".toList, "===".toList,
           "---".toList, "b.js".toList, "---".toList, "var b".toList, "===".toList] :=
  ⟨((build_no_partial_output (.ok "go".toList) (fun _ _ => .ok exampleOutput)
      ["./...".toList] id (fun _ => (exampleFiles, some exampleError))
      ["github.com/a/cmd".toList, "x|y".toList] ["Bad line".toList] exampleFiles
      (some exampleError) rfl rfl).1 exampleError rfl).1,
   (build_no_partial_output (.ok "go".toList) (fun _ _ => .ok exampleOutput)
      ["./...".toList] id (fun _ => (exampleFiles, none))
      ["github.com/a/cmd".toList, "x|y".toList] ["Bad line".toList] exampleFiles
      none rfl rfl).2 rfl,
   by decide⟩

/-- C9 (fails on the code): for `type ReadWriter interface { Reader; Write() }`
the method names `NewInterface` records are `[Write]` only, while the interface
requires `Read` and `Write`: the method `Read` of the embedded interface
`Reader` is missing, because the embedded interface is a field with no
names. -/
theorem NewInterface_misses_embedded :
    NewInterface mainInfo readWriterSpec = .ok readWriter
      ∧ readWriter.methods = ["Write".toList]
      ∧ requiredMethodNames
          [{ Names := [], Type_ := .embedded ["Read".toList] },
           { Names := ["Write".toList], Type_ := .funcType }]
        = ["Read".toList, "Write".toList]
      ∧ "Read".toList ∉ readWriter.methods :=
  ⟨rfl, rfl, rfl, by decide⟩

/-! ## Reachability and omission of interface definitions -/

theorem edges_append (xs ys : List Entry) : edges (xs ++ ys) = edges xs ++ edges ys := by
  induction xs with
  | nil => rfl
  | cons e es ih => simp [edges, ih]

theorem entry_Dependencies {Kind : Type} (Ty : Type) (d : ifacedef Kind) :
    (d.entry Ty).Dependencies = [] := rfl

theorem foldl_subset {f : List GoString → GoString → List GoString}
    (hf : ∀ v x, v ⊆ f v x) (l : List GoString) (v : List GoString) :
    v ⊆ l.foldl f v := by
  induction l generalizing v with
  | nil => exact List.Subset.refl v
  | cons x xs ih =>
    rw [List.foldl_cons]
    exact List.Subset.trans (hf v x) (ih (f v x))

theorem visit_subset (index : List Entry) (fuel : Nat) (visited : List GoString)
    (id : GoString) : visited ⊆ visit index fuel visited id := by
  induction fuel generalizing visited id with
  | zero => exact List.Subset.refl visited
  | succ fuel ih =>
    simp only [visit]
    split
    · exact List.Subset.refl visited
    · split
      · exact List.Subset.refl visited
      · rename_i e _
        exact List.Subset.trans (List.subset_append_left visited [id])
          (foldl_subset (fun v x => ih v x) e.Dependencies (visited ++ [id]))

theorem mem_visit_self (index : List Entry) (fuel : Nat) (visited : List GoString)
    (id : GoString) (e : Entry) (hget : Get index id = some e) :
    id ∈ visit index (fuel + 1) visited id := by
  simp only [visit]
  split
  · assumption
  · simp only [hget]
    exact foldl_subset (fun v x => visit_subset index fuel v x) e.Dependencies
      (visited ++ [id]) (by simp)

theorem mem_foldl_visit (index : List Entry) (fuel : Nat) (entryPoints : List GoString)
    (visited : List GoString) (id : GoString) (e : Entry) (hget : Get index id = some e)
    (hmem : id ∈ entryPoints) :
    id ∈ entryPoints.foldl (visit index (fuel + 1)) visited := by
  induction entryPoints generalizing visited with
  | nil => simp at hmem
  | cons x xs ih =>
    rw [List.foldl_cons]
    rcases List.mem_cons.1 hmem with rfl | h
    · exact foldl_subset (fun v y => visit_subset index (fuel + 1) v y) xs _
        (mem_visit_self index fuel visited id e hget)
    · exact ih _ h

/-- C10: for every interface definition `d` built by `NewInterface`, whatever
the comment attached to the declaration (a `js` tag with the omit flag
included) and whatever its methods, `Omitted()` is false and `Dependencies()`
is the empty sequence with a nil error.  Hence, in every index that holds `d`
under its ID: `d` adds no edge to the dependency graph wherever it is
registered, the traversal from `d` marks `d` and nothing else, `d` is reachable
when it is an entry point, and whenever `d` is reachable it is emitted, never
excluded by the omission rule. -/
theorem NewInterface_not_omitted {Kind : Type} (Ty : Type) (info : PackageInfo Kind)
    (n : TypeSpec) (d : ifacedef Kind) (h : NewInterface info n = .ok d)
    (index : List Entry) (entryPoints : List GoString)
    (hreg : Get index d.ID = some (d.entry Ty)) :
    d.node = n ∧ d.Omitted = false ∧ d.Dependencies Ty = ([], none)
      ∧ (∀ pre post : List Entry,
          edges (pre ++ d.entry Ty :: post) = edges (pre ++ post))
      ∧ (∀ (fuel : Nat) (visited : List GoString), d.ID ∉ visited →
          visit index (fuel + 1) visited d.ID = visited ++ [d.ID])
      ∧ (d.ID ∈ entryPoints → d.ID ∈ reachable index entryPoints)
      ∧ (d.ID ∈ reachable index entryPoints → d.ID ∈ emitted index entryPoints) := by
  refine ⟨(NewInterface_ok info n d h).2.2.2.1, rfl, rfl, ?_, ?_, ?_, ?_⟩
  · intro pre post
    rw [edges_append, edges_append]
    simp [edges, entry_Dependencies]
  · intro fuel visited hnot
    simp [visit, hnot, hreg, entry_Dependencies]
  · intro hmem
    exact mem_foldl_visit index index.length entryPoints [] d.ID _ hreg hmem
  · intro hr
    simp only [emitted, List.mem_filter]
    refine ⟨hr, ?_⟩
    simp [hreg, ifacedef.entry, ifacedef.Omitted]

/-- C10, on the example index, for the declaration of `ReadWriter` tagged
`js:"readWriter,omit"`, whose interface embeds another one: the definition is
not omitted and has no dependencies; from the entry point `main` the
definitions `main`, `ReadWriter` and `WebKitPoint` are reachable, and
`ReadWriter` is emitted while the omitted `WebKitPoint` is not. -/
theorem NewInterface_not_omitted_witness :
    readWriterSpec.Doc
        = ["js:".toList ++ [Char.ofNat 34] ++ "readWriter,omit".toList ++ [Char.ofNat 34]]
      ∧ reachable exampleEntries ["main main".toList]
        = ["main main".toList, "main ReadWriter".toList, "webkitpoint WebKitPoint".toList]
      ∧ emitted exampleEntries ["main main".toList]
        = ["main main".toList, "main ReadWriter".toList]
      ∧ readWriter.Omitted = false
      ∧ readWriter.Dependencies GoString = ([], none)
      ∧ readWriter.ID ∈ emitted exampleEntries ["main main".toList] :=
  have hw := NewInterface_not_omitted GoString mainInfo readWriterSpec readWriter rfl
    exampleEntries ["main main".toList] (by decide)
  ⟨rfl, by decide, by decide, hw.2.1, hw.2.2.1, hw.2.2.2.2.2.2 (by decide)⟩

end Joy
